import Mathlib

/-!
Formal model of the UniHelp assistant (src/app.py): the context-selection
engine (`extract_relevant_sections`), the quick-reply matcher and RAG entry
point (`ask_rag_question`), the multi-model invocation layer
(`chat_completion_with_fallback`), the conversation store
(`add_to_chat_history`, `start_new_conversation`, `clear_all_history`,
`delete_conversation_by_id`), the sliding-window rate limiter (`rate_limit`)
and the question-processing path of `main`.

Python strings are modelled as `List Char`; `len`, slicing, `split`,
`strip`, `lower`, `startswith` and the `in` substring test are modelled by
the corresponding list functions below.  Notes on the few places where the
model fixes something Python leaves open:

* Python's `str.lower`/`str.strip`/`\s` handle full Unicode; the model uses
  `Char.toLower` / `Char.isWhitespace` (ASCII).  No claim depends on
  non-ASCII case folding.
* `extract_relevant_sections` builds `relevant_sections` as a Python `set`
  and iterates it in an unspecified hash order.  The model keeps the labels
  in first-insertion order (the order of the keyword table, or the fallback
  order `SECTION 1, SECTION 2, SECTION 9`).  Every property proved below is
  either independent of that order or (for the length counterexample) uses
  sections of equal length so that every iteration order yields the same
  output length.
* In the header-key computation, the branch for a header line without a
  colon evaluates `line.split()[1]`, which raises `IndexError` in Python
  when the line is a single whitespace-delimited token; the model returns
  the out-of-range lookup as `[]` instead of failing.  No corpus used in a
  theorem below hits that branch.
-/

namespace UniHelp

/-- Text is modelled as a list of characters (Python `str`). -/
abbrev Txt := List Char

/-- Python `sep.join(pieces)` for a list of text pieces. -/
def joinSep (sep : Txt) : List Txt → Txt
  | [] => []
  | [c] => c
  | c :: c' :: t => c ++ sep ++ joinSep sep (c' :: t)

/-- Python `text.split(sep)` for a single-character separator: splits on
every occurrence, keeping empty pieces (so `"".split` gives one empty
piece). -/
def splitOn (sep : Char) : Txt → List Txt
  | [] => [[]]
  | a :: rest =>
    if a = sep then [] :: splitOn sep rest
    else
      match splitOn sep rest with
      | [] => [[a]]
      | p :: ps => (a :: p) :: ps

/-- Python `text.strip()`: drop leading and trailing whitespace. -/
def trimChars (t : Txt) : Txt :=
  ((t.dropWhile Char.isWhitespace).reverse.dropWhile Char.isWhitespace).reverse

/-- Python `text.lower()`. -/
def toLowerTxt (t : Txt) : Txt := t.map Char.toLower

/-- Python `needle in hay` substring test. -/
def containsSub (needle : Txt) : Txt → Bool
  | [] => needle.isEmpty
  | h :: t => needle.isPrefixOf (h :: t) || containsSub needle t

/-- Python `re.sub(r"\s+", " ", text)`: collapse every maximal whitespace
run to a single space. -/
def normSpaces : Txt → Txt
  | [] => []
  | [c] => if c.isWhitespace then [' '] else [c]
  | a :: b :: t =>
    if a.isWhitespace && b.isWhitespace then normSpaces (b :: t)
    else (if a.isWhitespace then ' ' else a) :: normSpaces (b :: t)

/-- The apostrophe character (allowed inside word tokens by the
`[a-z0-9']+` token pattern). -/
def aposChar : Char := Char.ofNat 39

/-- Character class of Python's token pattern `[a-z0-9']+`. -/
def isWordChar (c : Char) : Bool :=
  ('a' ≤ c && c ≤ 'z') || c.isDigit || c = aposChar

/-- Python `re.findall(r"[a-z0-9']+", text)`: maximal runs of word
characters. -/
def tokenize : Txt → List Txt
  | [] => []
  | c :: t =>
    if isWordChar c then
      match tokenize t with
      | [] => [[c]]
      | tok :: toks =>
        match t with
        | [] => [[c]]
        | c' :: _ => if isWordChar c' then (c :: tok) :: toks else [c] :: tok :: toks
    else tokenize t

/-- Python `xs[-n:]`. -/
def lastN (n : Nat) (l : List α) : List α := l.drop (l.length - n)

/-- Python whitespace `str.split()` (no argument): split on whitespace
runs, dropping empty pieces. -/
def wsSplit (t : Txt) : List Txt :=
  (splitOn ' ' t).filter (fun p => !p.isEmpty)

/-! ## Configuration constants (`APP_CONFIG`) -/

/-- `APP_CONFIG["MAX_QUESTION_LENGTH"]`. -/
def MAX_QUESTION_LENGTH : Nat := 500

/-- `APP_CONFIG["RATE_LIMIT_REQUESTS"]`. -/
def RATE_LIMIT_REQUESTS : Nat := 10

/-- `APP_CONFIG["RATE_LIMIT_WINDOW_SECONDS"]`. -/
def RATE_LIMIT_WINDOW_SECONDS : Nat := 60

/-- `APP_CONFIG["MODEL_CANDIDATES"]`. -/
def MODEL_CANDIDATES : List Txt :=
  ["llama-3.1-8b-instant".data, "llama-3.3-70b-versatile".data]

/-! ## Rate limiter (`rate_limit`, lines 232-254)

The decorator keeps `_rate_limit_storage[user_id]`, a list of request
timestamps for the session.  One gated call first prunes entries whose age
reaches the window, then either records the new timestamp and allows the
call or denies it (returning, not raising) without recording. -/

/-- One call through the `rate_limit` gate: returns (allowed?, new
timestamp storage). -/
def rate_limit_gate (windowSeconds threshold : Nat) (now : Nat)
    (storage : List Nat) : Bool × List Nat :=
  let pruned := storage.filter (fun ts => now - ts < windowSeconds)
  if threshold ≤ pruned.length then (false, pruned)
  else (true, pruned ++ [now])

/-- A sequence of gated calls at the given timestamps, with the configured
window 60 and threshold 10; returns the per-call outcomes and the final
storage. -/
def rateCalls : List Nat → List Nat → List Bool × List Nat
  | [], storage => ([], storage)
  | now :: rest, storage =>
    let step := rate_limit_gate RATE_LIMIT_WINDOW_SECONDS RATE_LIMIT_REQUESTS now storage
    let further := rateCalls rest step.2
    (step.1 :: further.1, further.2)

/-! ## Input validation (`validate_question`, lines 276-288) -/

/-- Length of the longest run of a repeated character continuing the given
character. -/
def runLen (c : Char) : Txt → Nat
  | [] => 0
  | a :: r => if a = c then runLen c r + 1 else 0

/-- Python `re.search(r'(.)\1{10,}', question)`: some character occurs 11
or more times in a row. -/
def hasRepeatRun : Txt → Bool
  | [] => false
  | a :: r => (11 ≤ runLen a r + 1) || hasRepeatRun r

/-- `validate_question`: nonempty with at least 3 non-whitespace-stripped
characters, at most `MAX_QUESTION_LENGTH` characters, and no spam run. -/
def validate_question (question : Txt) : Bool :=
  if question.isEmpty || (trimChars question).length < 3 then false
  else if MAX_QUESTION_LENGTH < question.length then false
  else if hasRepeatRun question then false
  else true

/-! ## Context selector (`extract_relevant_sections`, lines 746-833) -/

/-- The keyword table mapping keyword sets to section labels (insertion
order of the Python dict literal). -/
def keywordSections : List (List Txt × Txt) :=
  [ (["inscription".data, "inscri".data, "réinscription".data, "enroll".data,
      "documents obligatoires".data, "frais inscription".data], "SECTION 1".data),
    (["certificat".data, "attestation".data, "relevé".data, "notes".data,
      "scolarité".data, "certificate".data], "SECTION 2".data),
    (["bourse".data, "aide financière".data, "prêt".data, "scholarship".data,
      "financial aid".data, "mobilité".data], "SECTION 3".data),
    (["stage".data, "internship".data, "convention".data, "entreprise".data,
      "rapport".data, "soutenance".data], "SECTION 4".data),
    (["absence".data, "justification".data, "assiduité".data, "présence".data,
      "retard".data], "SECTION 5".data),
    (["examen".data, "rattrapage".data, "évaluation".data, "test".data,
      "exam".data, "compensation".data, "note".data, "fraude".data], "SECTION 6".data),
    (["paiement".data, "frais".data, "tarif".data, "remboursement".data,
      "payment".data, "fee".data, "échéance".data], "SECTION 7".data),
    (["calendrier".data, "date".data, "semestre".data, "vacances".data,
      "calendar".data, "rentrée".data], "SECTION 8".data),
    (["règlement".data, "discipline".data, "sanction".data, "interdiction".data,
      "droits".data, "devoirs".data, "regulation".data], "SECTION 9".data),
    (["bibliothèque".data, "restaurant".data, "cantine".data, "logement".data,
      "résidence".data, "sport".data, "library".data, "service".data], "SECTION 10".data),
    (["contact".data, "email".data, "téléphone".data, "urgence".data,
      "service".data, "bureau".data, "scolarité".data], "SECTION 11".data) ]

/-- The fallback labels used when no keyword set matches (line 789). -/
def fallbackSections : List Txt :=
  ["SECTION 1".data, "SECTION 2".data, "SECTION 9".data]

/-- The relevant section labels for a lowercased question: every label
whose keyword set has a keyword occurring in the question, or the fallback
set.  (Python collects these in a `set`; labels are pairwise distinct, and
the model fixes first-insertion order, see the header comment.) -/
def relevantSections (questionLower : Txt) : List Txt :=
  let hits := ((keywordSections.filter
      (fun p => p.1.any (fun kw => containsSub kw questionLower))).map Prod.snd).dedup
  if hits.isEmpty then fallbackSections else hits

/-- Python `sections_dict[k] = v`: update in place if the key is present,
else append (dict insertion order). -/
def dictInsert (d : List (Txt × Txt)) (k v : Txt) : List (Txt × Txt) :=
  if d.any (fun p => p.1 = k) then d.map (fun p => if p.1 = k then (k, v) else p)
  else d ++ [(k, v)]

/-- The section-header marker (`line.startswith('SECTION ')`). -/
def headerMarker : Txt := "SECTION ".data

/-- The key stored for a header line:
`line.split(':')[0].strip() if ':' in line else line.split()[0] + ' ' + line.split()[1]`. -/
def sectionKeyOfHeader (line : Txt) : Txt :=
  if line.contains ':' then trimChars ((splitOn ':' line).headD [])
  else
    let parts := wsSplit line
    parts.headD [] ++ [' '] ++ (parts.drop 1).headD []

/-- The corpus-parsing loop of `extract_relevant_sections` (lines 792-809):
scan the lines, starting a new section at each header line and accumulating
content lines, saving each finished section into the dict; a final save
keeps the last section when its content list is nonempty. -/
def parseSections : List Txt → Option Txt → List Txt → List (Txt × Txt) → List (Txt × Txt)
  | [], cur, content, dict =>
    match cur with
    | some k => if content.isEmpty then dict else dictInsert dict k (joinSep ['\n'] content)
    | none => dict
  | line :: rest, cur, content, dict =>
    if headerMarker.isPrefixOf line then
      let dict' :=
        match cur with
        | some k => dictInsert dict k (joinSep ['\n'] content)
        | none => dict
      parseSections rest (some (sectionKeyOfHeader line)) [line] dict'
    else
      match cur with
      | some k => parseSections rest (some k) (content ++ [line]) dict
      | none => parseSections rest none content dict

/-- `sections_dict` for a corpus. -/
def sectionsDict (fullContext : Txt) : List (Txt × Txt) :=
  parseSections (splitOn '\n' fullContext) none [] []

/-- The truncation marker `"\n..."` appended to a clipped section. -/
def truncMarker : Txt := "\n...".data

/-- The inner extraction loop over `sections_dict.items()` for one relevant
label (lines 816-826): append each matching section whole while the
running budget allows; otherwise append a clipped section when more than
500 characters remain (without counting it into the budget — exactly as
the source does) and stop scanning for this label. -/
def innerExtract (sectionKey : Txt) (maxChars : Nat) :
    List (Txt × Txt) → List Txt → Nat → List Txt × Nat
  | [], ext, tot => (ext, tot)
  | (k, content) :: rest, ext, tot =>
    if containsSub sectionKey k then
      if tot + content.length < maxChars then
        innerExtract sectionKey maxChars rest (ext ++ [content]) (tot + content.length)
      else if 500 < maxChars - tot then
        (ext ++ [content.take (maxChars - tot) ++ truncMarker], tot)
      else (ext, tot)
    else innerExtract sectionKey maxChars rest ext tot

/-- The outer extraction loop over the relevant labels (line 815). -/
def extractLoop (dict : List (Txt × Txt)) (maxChars : Nat) (labels : List Txt) :
    List Txt × Nat :=
  labels.foldl (fun acc key => innerExtract key maxChars dict acc.1 acc.2) ([], 0)

/-- `extract_relevant_sections(full_context, user_question, max_chars)`. -/
def extract_relevant_sections (fullContext userQuestion : Txt) (maxChars : Nat) : Txt :=
  let questionLower := toLowerTxt userQuestion
  let labels := relevantSections questionLower
  let dict := sectionsDict fullContext
  let extracted := (extractLoop dict maxChars labels).1
  if extracted.isEmpty then fullContext.take maxChars
  else
    let result := joinSep "\n\n".data extracted
    if result.isEmpty then fullContext.take maxChars else result

/-! ## Model invocation with fallback (`chat_completion_with_fallback`,
lines 715-739)

The backend is an oracle mapping a model name and message list to either
generated text or an error.  The per-candidate request loop records the
last error; exhaustion raises it (or `RuntimeError` when the candidate
list was empty, modelled as the `none` error).  The second component
counts the requests actually attempted. -/

/-- A chat message (`{"role": ..., "content": ...}`). -/
structure ChatMsg where
  role : Txt
  content : Txt
deriving DecidableEq

/-- The candidate loop: try each model once in order, keeping the last
recorded error. -/
def tryModelsAux (oracle : Txt → List ChatMsg → Except ε Txt)
    (messages : List ChatMsg) : List Txt → Option ε → Except (Option ε) Txt × Nat
  | [], lastError => (.error lastError, 0)
  | m :: rest, lastError =>
    match oracle m messages with
    | .ok content => (.ok (trimChars content), 1)
    | .error e =>
      let r := tryModelsAux oracle messages rest (some e)
      (r.1, r.2 + 1)

/-- `chat_completion_with_fallback(client, temperature, messages)` over a
candidate list (the source iterates `APP_CONFIG["MODEL_CANDIDATES"]`). -/
def chat_completion_with_fallback (oracle : Txt → List ChatMsg → Except ε Txt)
    (models : List Txt) (messages : List ChatMsg) : Except (Option ε) Txt × Nat :=
  tryModelsAux oracle messages models none

/-! ## Quick replies and the RAG entry point (`ask_rag_question`,
lines 836-953) -/

/-- The greeting vocabulary (line 851). -/
def greetingsVocab : List Txt :=
  ["salut".data, "bonjour".data, "bonsoir".data, "hello".data, "hi".data,
   "hey".data, "salam".data, "slm".data, "aslema".data, "asslema".data,
   "ahla".data, "marhba".data, "mar7ba".data]

/-- The thanks vocabulary (line 855). -/
def thanksVocab : List Txt :=
  ["merci".data, "thanks".data, "thank you".data, "chokran".data,
   "choukrane".data, "bravo".data]

/-- The canned greeting reply per language. -/
def greetingReply (lang : Txt) : Txt :=
  if lang = "TN".data then
    ("Asslema 👋 Ahlan bik! Nجم n3awnek fi les infos mta3 l-jam3a. Exemples: `nheb na3ref noteti`, `kifech na3mel inscription`, `chnowa documents mta3 bourse` 🙂").data
  else if lang = "EN".data then
    ("Hi 👋 Welcome! I can help with university info. Try: `I want to check my grades`, `how to enroll`, `scholarship documents` 🙂").data
  else
    ("Salut 👋 Je peux t’aider avec les infos universitaires. Exemples: `je veux connaître mes notes`, `comment faire l'inscription`, `documents pour la bourse` 🙂").data

/-- The canned thanks reply per language. -/
def thanksReply (lang : Txt) : Txt :=
  if lang = "TN".data then
    ("3la rassi 😊 Ken theb, nجم n3awnek zeda b inscription, notes, bourse, stage...").data
  else if lang = "EN".data then
    ("You're welcome 😊 If you want, I can also help with enrollment, grades, scholarships, or internships.").data
  else
    ("Avec plaisir 😊 Si tu veux, je peux aussi t’aider pour inscription, notes, bourse ou stage.").data

/-- `quick_conversation_reply(question, language)`: normalize, tokenize,
and answer greetings/thanks locally; `none` signals the caller to proceed
to full generation.  A pure function — this models the required absence of
side effects. -/
def quick_conversation_reply (question lang : Txt) : Option Txt :=
  let text := normSpaces (toLowerTxt (trimChars question))
  if text.isEmpty then none
  else
    let tokens := tokenize text
    let isGreeting := tokens.any (fun t => greetingsVocab.contains t)
      || greetingsVocab.contains text
    let isThanks := tokens.any (fun t => thanksVocab.contains t)
      || thanksVocab.contains text
    if isGreeting then some (greetingReply lang)
    else if isThanks then some (thanksReply lang)
    else none

/-- `get_text("not_found")` per language (the `LANGUAGES` table). -/
def notFoundMsg (lang : Txt) : Txt :=
  if lang = "FR".data then
    ("Cette information n'est pas disponible dans les documents officiels.").data
  else if lang = "EN".data then
    ("This information is not available in the official documents.").data
  else
    ("Hedhi el ma3louma mawjoudech fel documents er-rasmiya.").data

/-- The language-specific system prompt of `ask_rag_question`
(lines 899-931), with the fallback message interpolated. -/
def systemPrompt (lang fallbackMsg : Txt) : Txt :=
  if lang = "TN".data then
    ("Enti UniHelp, msa3ed jami3i barcha wadoud w fi el khedma (logha: ").data
    ++ lang
    ++ ("). Tsa3ed el tolba fi sou2elethom el jami3iya b tari9a tabi3iya w wadouda. Jaweb b tari9a wedha w mafhouma. Esta3mel emojis ki ylazem 😊. E3tamed 3al context er-rasmi bech ta3ti ma3loumet sa7i7a. Ken tetdhaker 7ajet 9dima mel conversation, matredhech bech tarbethom. Ken el ma3louma mawjoudech fel context, 9oul b el adab: \"").data
    ++ fallbackMsg
    ++ ("\" Koun mo5taser ama kemel fel ijeba.").data
  else if lang = "EN".data then
    ("You are UniHelp, a friendly and helpful university assistant (language: ").data
    ++ lang
    ++ ("). You help students with their university questions in a conversational and natural way. Answer warmly, clearly and accessibly. Use emojis when appropriate 😊. Base yourself ONLY on the official context provided to give accurate information. If you remember previous exchanges in the conversation, don't hesitate to make the connection. If the information is not in the context, politely say: \"").data
    ++ fallbackMsg
    ++ ("\" Be concise but complete in your answers.").data
  else
    ("Tu es UniHelp, un assistant universitaire sympathique et serviable (langue: ").data
    ++ lang
    ++ ("). Tu aides les étudiants avec leurs questions universitaires de manière conversationnelle et naturelle. Réponds de façon chaleureuse, claire et accessible. Utilise des emojis quand c'est approprié 😊. Base-toi UNIQUEMENT sur le contexte officiel fourni pour donner des informations précises. Si tu te souviens d'échanges précédents dans la conversation, n'hésite pas à faire le lien. Si l'information n'est pas dans le contexte, dis poliment: \"").data
    ++ fallbackMsg
    ++ ("\" Sois concis mais complet dans tes réponses.").data

/-- `ask_rag_question(client, documents_context, user_question, lang,
conversation_history)`: quick-reply short circuit, context extraction with
a 4000-character budget, message assembly with the last 6 history
messages, then the fallback invocation; an empty successful answer falls
back to the "not found" sentinel.  The second component counts backend
requests. -/
def ask_rag_question (oracle : Txt → List ChatMsg → Except ε Txt)
    (documentsContext userQuestion lang : Txt)
    (conversationHistory : List ChatMsg) : Except (Option ε) Txt × Nat :=
  match quick_conversation_reply userQuestion lang with
  | some r => (.ok r, 0)
  | none =>
    let fallbackMsg := notFoundMsg lang
    let relevantContext := extract_relevant_sections documentsContext userQuestion 4000
    let histMsgs := lastN 6 conversationHistory
    let userPrompt := ("Context universitaire:\n").data ++ relevantContext
      ++ ("\n\nQuestion: ").data ++ userQuestion
    let messages := ChatMsg.mk ("system").data (systemPrompt lang fallbackMsg)
      :: histMsgs ++ [ChatMsg.mk ("user").data userPrompt]
    match chat_completion_with_fallback oracle MODEL_CANDIDATES messages with
    | (.ok a, n) => (.ok (if a.isEmpty then fallbackMsg else a), n)
    | (.error e, n) => (.error e, n)

/-! ## Conversation store (lines 489-550) and session state

`st.session_state` fields relevant to the claims.  Current time values
(`datetime.now()` formatted strings) are passed in as parameters.  Email
history entries are kept opaque; the rate storage is the
`_rate_limit_storage` list for this session (which the question flow never
touches, faithfully to the source). -/

/-- One chat-history entry. -/
structure Entry where
  timestamp : Txt
  conversation_id : Txt
  question : Txt
  answer : Txt
deriving DecidableEq

/-- The session state. -/
structure AppState where
  chat_history : List Entry
  current_conversation : List Entry
  conversation_id : Txt
  email_history : List Txt
  rate_storage : List Nat
deriving DecidableEq

/-- `add_to_chat_history(question, answer)`: append the new turn to both
the active conversation and the permanent history. -/
def add_to_chat_history (nowStr question answer : Txt) (s : AppState) : AppState :=
  let entry : Entry := ⟨nowStr, s.conversation_id, question, answer⟩
  { s with current_conversation := s.current_conversation ++ [entry],
           chat_history := s.chat_history ++ [entry] }

/-- `start_new_conversation()`: fresh conversation id (the formatted
current time), clear only the active display. -/
def start_new_conversation (nowStr : Txt) (s : AppState) : AppState :=
  { s with conversation_id := nowStr, current_conversation := [] }

/-- `clear_all_history()`. -/
def clear_all_history (s : AppState) : AppState :=
  { s with chat_history := [], current_conversation := [] }

/-- `delete_conversation_by_id(conversation_id)`. -/
def delete_conversation_by_id (cid : Txt) (s : AppState) : AppState :=
  { s with chat_history := s.chat_history.filter (fun e => e.conversation_id ≠ cid),
           current_conversation :=
             if s.conversation_id = cid then [] else s.current_conversation }

/-- The conversation-store operations of the claims. -/
inductive StoreOp where
  | addTurn (nowStr question answer : Txt)
  | startNew (nowStr : Txt)
  | deleteConv (cid : Txt)
  | clearAll

/-- Apply one store operation. -/
def applyOp (s : AppState) : StoreOp → AppState
  | .addTurn now q a => add_to_chat_history now q a s
  | .startNew now => start_new_conversation now s
  | .deleteConv cid => delete_conversation_by_id cid s
  | .clearAll => clear_all_history s

/-- Apply a sequence of store operations. -/
def applyOps (s : AppState) (ops : List StoreOp) : AppState := ops.foldl applyOp s

/-- The store invariant maintained by the operations: every displayed turn
is in the durable history and carries the active conversation id. -/
def StoreInv (s : AppState) : Prop :=
  ∀ e ∈ s.current_conversation,
    e ∈ s.chat_history ∧ e.conversation_id = s.conversation_id

/-! ## The question-processing path of `main` (lines 1219-1248)

On a submitted question: nothing happens on an empty question or an empty
corpus; otherwise the conversation history is rebuilt from the last 3
displayed turns, `ask_rag_question` is called on the stripped question,
and on success the turn is recorded.  `main` calls neither
`validate_question` nor the `rate_limit` gate (both are defined in the
source but never applied) — the model reproduces that faithfully.  The
second component counts backend requests made by the call. -/

/-- The history messages `main` rebuilds from the displayed conversation
(user/assistant pairs of the last 3 turns). -/
def buildConvHistory (cur : List Entry) : List ChatMsg :=
  ((lastN 3 cur).map (fun e =>
    [ChatMsg.mk ("user").data e.question, ChatMsg.mk ("assistant").data e.answer])).flatten

/-- One pass through the question handler of `main`. -/
def process_question (oracle : Txt → List ChatMsg → Except ε Txt)
    (nowStr docs question lang : Txt) (s : AppState) : AppState × Nat :=
  if question.isEmpty then (s, 0)
  else if docs.isEmpty then (s, 0)
  else
    let convHistory := buildConvHistory s.current_conversation
    match ask_rag_question oracle docs (trimChars question) lang convHistory with
    | (.ok a, n) => (add_to_chat_history nowStr (trimChars question) a s, n)
    | (.error _, n) => (s, n)

/-- Repeat the question handler `k` times with the same question, summing
the backend requests issued. -/
def processRepeat (oracle : Txt → List ChatMsg → Except ε Txt)
    (nowStr docs question lang : Txt) : Nat → AppState → AppState × Nat
  | 0, s => (s, 0)
  | k + 1, s =>
    let step := process_question oracle nowStr docs question lang s
    let further := processRepeat oracle nowStr docs question lang k step.1
    (further.1, step.2 + further.2)

/-! ## Concrete data for counterexamples and witnesses -/

/-- Sum of the lengths of a list of text pieces. -/
def sumLens (l : List Txt) : Nat := (l.map List.length).sum

/-- A fresh session state as `init_session_state` creates it (empty
display, some active conversation id). -/
def initState : AppState := ⟨[], [], "c0".data, [], []⟩

/-- A backend oracle that always succeeds with the text `"ok"`. -/
def okOracle : Txt → List ChatMsg → Except Nat Txt := fun _ _ => .ok ("ok").data

/-- A backend oracle that always fails with error code 3. -/
def failOracle : Txt → List ChatMsg → Except Nat Txt := fun _ _ => .error 3

/-- A backend oracle on which the first configured candidate fails and any
other candidate succeeds with `" ok "`. -/
def mixedOracle : Txt → List ChatMsg → Except Nat Txt :=
  fun m _ => if m = ("llama-3.1-8b-instant").data then .error 7 else .ok (" ok ").data

/-- A store-operation trace used as a concrete witness: one turn, a new
conversation, another turn, then deletion of the first conversation. -/
def demoOps : List StoreOp :=
  [.addTurn ("t1").data ("q1").data ("a1").data,
   .startNew ("t2").data,
   .addTurn ("t3").data ("q2").data ("a2").data,
   .deleteConv ("c0").data]

/-- A one-section corpus used by the flow theorems. -/
def docsSmall : Txt := ("SECTION 1: a").data

/-- A corpus of three equal-length sections (each 501 characters including
its header line) used by the length counterexample. -/
def cexCorpus : Txt :=
  ("SECTION 1:\n").data ++ List.replicate 490 'a'
  ++ ("\nSECTION 2:\n").data ++ List.replicate 490 'b'
  ++ ("\nSECTION 9:\n").data ++ List.replicate 490 'c'

/-- A query matching no keyword set, so that the fallback labels
`SECTION 1, SECTION 2, SECTION 9` are used. -/
def cexQuery : Txt := ("zzz").data

/-- Recursive restatement of the label fold of `extractLoop`, convenient
for induction. -/
def extractFold (dict : List (Txt × Txt)) (maxChars : Nat) :
    List Txt → List Txt × Nat → List Txt × Nat
  | [], st => st
  | key :: rest, st =>
    extractFold dict maxChars rest (innerExtract key maxChars dict st.1 st.2)

/-! ## Helper lemmas on the text utilities -/

theorem sumLens_nil : sumLens [] = 0 := rfl

theorem sumLens_cons (c : Txt) (l : List Txt) :
    sumLens (c :: l) = c.length + sumLens l := by
  simp [sumLens]

theorem sumLens_append (l : List Txt) (c : Txt) :
    sumLens (l ++ [c]) = sumLens l + c.length := by
  simp [sumLens]

theorem joinSep_length (sep : Txt) :
    ∀ l : List Txt, l ≠ [] →
      (joinSep sep l).length = sumLens l + sep.length * (l.length - 1)
  | [], h => absurd rfl h
  | [c], _ => by simp [joinSep, sumLens]
  | c :: c' :: t, _ => by
    have ih := joinSep_length sep (c' :: t) (by simp)
    simp only [joinSep, List.length_append, ih, sumLens_cons, List.length_cons,
      Nat.add_sub_cancel]
    ring

theorem length_le_sumLens :
    ∀ l : List Txt, (∀ c ∈ l, c ≠ []) → l.length ≤ sumLens l
  | [], _ => by simp [sumLens]
  | c :: t, h => by
    have hc : 1 ≤ c.length := by
      have := h c (by simp)
      cases c with
      | nil => exact absurd rfl this
      | cons a r => simp
    have ih := length_le_sumLens t (fun x hx => h x (by simp [hx]))
    simp only [List.length_cons, sumLens_cons]
    omega

theorem joinSep_ne_nil (sep : Txt) (h : Txt) (t : List Txt) (hh : h ≠ []) :
    joinSep sep (h :: t) ≠ [] := by
  cases t with
  | nil => simpa [joinSep] using hh
  | cons b t' =>
    simp only [joinSep]
    intro hcontra
    rcases List.append_eq_nil.mp hcontra with ⟨h1, -⟩
    rcases List.append_eq_nil.mp h1 with ⟨h2, -⟩
    exact hh h2

theorem joinSep_split_of_mem (sep : Txt) :
    ∀ (l : List Txt) (c : Txt), c ∈ l → ∃ x y, joinSep sep l = x ++ c ++ y
  | [], c, h => absurd h (by simp)
  | a :: t, c, h => by
    rcases List.mem_cons.mp h with rfl | hmem
    · cases t with
      | nil => exact ⟨[], [], by simp [joinSep]⟩
      | cons b t' => exact ⟨[], sep ++ joinSep sep (b :: t'), by simp [joinSep]⟩
    · have hne : t ≠ [] := by rintro rfl; simp at hmem
      obtain ⟨b, t', rfl⟩ := List.exists_cons_of_ne_nil hne
      obtain ⟨x, y, hxy⟩ := joinSep_split_of_mem sep (b :: t') c hmem
      exact ⟨a ++ sep ++ x, y, by simp [joinSep, hxy]⟩

theorem isPrefixOf_append_self (c r : Txt) : c.isPrefixOf (c ++ r) = true := by
  induction c with
  | nil => simp [List.isPrefixOf]
  | cons a t ih => simp [List.isPrefixOf, ih]

theorem containsSub_of_isPrefixOf (needle hay : Txt)
    (h : needle.isPrefixOf hay = true) : containsSub needle hay = true := by
  cases hay with
  | nil =>
    cases needle with
    | nil => rfl
    | cons a t => simp [List.isPrefixOf] at h
  | cons a t => simp [containsSub, h]

theorem containsSub_append (x c y : Txt) : containsSub c (x ++ c ++ y) = true := by
  induction x with
  | nil => exact containsSub_of_isPrefixOf c (c ++ y) (isPrefixOf_append_self c y)
  | cons a t ih =>
    have hstep : (a :: t) ++ c ++ y = a :: (t ++ c ++ y) := by simp
    rw [hstep]
    simp only [containsSub, Bool.or_eq_true]
    exact Or.inr ih

/-! ## Budget lemmas for the extraction loops -/

theorem innerExtract_bound (key : Txt) (maxChars : Nat) :
    ∀ (items : List (Txt × Txt)) (ext : List Txt) (tot : Nat),
      sumLens (innerExtract key maxChars items ext tot).1 + tot ≤
        sumLens ext + (innerExtract key maxChars items ext tot).2 + (maxChars + 4) ∧
      tot ≤ (innerExtract key maxChars items ext tot).2 ∧
      (tot ≤ maxChars → (innerExtract key maxChars items ext tot).2 ≤ maxChars)
  | [], ext, tot => by simp [innerExtract]
  | (k, c) :: rest, ext, tot => by
    by_cases h1 : containsSub key k
    · by_cases h2 : tot + c.length < maxChars
      · have ih := innerExtract_bound key maxChars rest (ext ++ [c]) (tot + c.length)
        rw [sumLens_append] at ih
        simp only [innerExtract, h1, if_pos, h2, if_true]
        refine ⟨by omega, by omega, fun _ => ih.2.2 (by omega)⟩
      · by_cases h3 : 500 < maxChars - tot
        · simp only [innerExtract, h1, if_pos, h2, if_false, h3, if_true]
          rw [sumLens_append]
          refine ⟨?_, le_refl tot, fun h => h⟩
          have hlen : (c.take (maxChars - tot)).length ≤ maxChars - tot := by
            rw [List.length_take]
            omega
          have hmark : truncMarker.length = 4 := rfl
          have htake : (c.take (maxChars - tot) ++ truncMarker).length ≤
              (maxChars - tot) + 4 := by
            rw [List.length_append, hmark]
            omega
          omega
        · simp only [innerExtract, h1, if_pos, h2, if_false, h3]
          exact ⟨by omega, le_refl tot, fun h => h⟩
    · have ih := innerExtract_bound key maxChars rest ext tot
      simpa only [innerExtract, h1, if_false] using ih

theorem innerExtract_chunks_ne (key : Txt) (maxChars : Nat) :
    ∀ (items : List (Txt × Txt)) (ext : List Txt) (tot : Nat),
      (∀ c ∈ ext, c ≠ []) → (∀ p ∈ items, p.2 ≠ []) →
      ∀ c ∈ (innerExtract key maxChars items ext tot).1, c ≠ []
  | [], ext, tot => by
    intro hext _ c hc
    simp only [innerExtract] at hc
    exact hext c hc
  | (k, c) :: rest, ext, tot => by
    intro hext hitems
    have hc : c ≠ [] := hitems (k, c) (by simp)
    have hrest : ∀ p ∈ rest, p.2 ≠ [] := fun p hp => hitems p (by simp [hp])
    by_cases h1 : containsSub key k
    · by_cases h2 : tot + c.length < maxChars
      · simp only [innerExtract, h1, if_pos, h2, if_true]
        refine innerExtract_chunks_ne key maxChars rest (ext ++ [c]) (tot + c.length)
          ?_ hrest
        intro x hx
        rcases List.mem_append.mp hx with h | h
        · exact hext x h
        · simp at h; subst h; exact hc
      · by_cases h3 : 500 < maxChars - tot
        · simp only [innerExtract, h1, if_pos, h2, if_false, h3, if_true]
          intro x hx
          rcases List.mem_append.mp hx with h | h
          · exact hext x h
          · simp at h
            subst h
            intro hcontra
            have := (List.append_eq_nil.mp hcontra).2
            simp [truncMarker] at this
        · simp only [innerExtract, h1, if_pos, h2, if_false, h3]
          exact fun x hx => hext x hx
    · simp only [innerExtract, h1, if_false]
      exact innerExtract_chunks_ne key maxChars rest ext tot hext hrest

theorem extractLoop_eq_extractFold (dict : List (Txt × Txt)) (maxChars : Nat)
    (labels : List Txt) :
    extractLoop dict maxChars labels = extractFold dict maxChars labels ([], 0) := by
  have step : ∀ (ls : List Txt) (st : List Txt × Nat),
      ls.foldl (fun acc key => innerExtract key maxChars dict acc.1 acc.2) st =
        extractFold dict maxChars ls st := by
    intro ls
    induction ls with
    | nil => intro st; simp [extractFold]
    | cons key rest ih => intro st; simp [extractFold, ih]
  exact step labels ([], 0)

theorem extractFold_bound (dict : List (Txt × Txt)) (maxChars : Nat) :
    ∀ (labels : List Txt) (st : List Txt × Nat),
      sumLens (extractFold dict maxChars labels st).1 + st.2 ≤
        sumLens st.1 + (extractFold dict maxChars labels st).2 +
          labels.length * (maxChars + 4) ∧
      st.2 ≤ (extractFold dict maxChars labels st).2 ∧
      (st.2 ≤ maxChars → (extractFold dict maxChars labels st).2 ≤ maxChars)
  | [], st => by simp [extractFold]
  | key :: rest, st => by
    have h1 := innerExtract_bound key maxChars dict st.1 st.2
    have h2 := extractFold_bound dict maxChars rest
      (innerExtract key maxChars dict st.1 st.2)
    simp only [extractFold, List.length_cons, Nat.succ_mul]
    have e1 := h1.1
    have e2 := h1.2.1
    have e3 := h1.2.2
    have f1 := h2.1
    have f2 := h2.2.1
    have f3 := h2.2.2
    refine ⟨by omega, by omega, fun h => f3 (e3 h)⟩

theorem extractFold_chunks_ne (dict : List (Txt × Txt)) (maxChars : Nat)
    (hdict : ∀ p ∈ dict, p.2 ≠ []) :
    ∀ (labels : List Txt) (st : List Txt × Nat),
      (∀ c ∈ st.1, c ≠ []) →
      ∀ c ∈ (extractFold dict maxChars labels st).1, c ≠ []
  | [], st => by
    intro hst c hc
    simp only [extractFold] at hc
    exact hst c hc
  | key :: rest, st => by
    intro hst
    simp only [extractFold]
    exact extractFold_chunks_ne dict maxChars hdict rest _
      (innerExtract_chunks_ne key maxChars dict st.1 st.2 hst hdict)

/-! ## Nonemptiness of parsed section contents -/

theorem dictInsert_values_ne (d : List (Txt × Txt)) (k v : Txt)
    (hd : ∀ p ∈ d, p.2 ≠ []) (hv : v ≠ []) :
    ∀ p ∈ dictInsert d k v, p.2 ≠ [] := by
  intro p hp
  unfold dictInsert at hp
  split at hp
  · rcases List.mem_map.mp hp with ⟨q, hq, hpq⟩
    by_cases hk : q.1 = k
    · simp only [hk, if_pos] at hpq
      subst hpq
      exact hv
    · simp only [hk, if_neg, if_false] at hpq
      subst hpq
      exact hd q hq
  · rcases List.mem_append.mp hp with h | h
    · exact hd p h
    · simp at h
      subst h
      exact hv

theorem header_line_ne (line : Txt) (h : headerMarker.isPrefixOf line = true) :
    line ≠ [] := by
  intro hcontra
  subst hcontra
  exact absurd h (by decide)

theorem parseSections_values_ne :
    ∀ (lines : List Txt) (cur : Option Txt) (content : List Txt)
      (dict : List (Txt × Txt)),
      (∀ p ∈ dict, p.2 ≠ []) →
      (∀ k, cur = some k → ∃ h t, content = h :: t ∧ h ≠ []) →
      ∀ p ∈ parseSections lines cur content dict, p.2 ≠ []
  | [], cur, content, dict => by
    intro hdict hcontent p hp
    cases cur with
    | none => exact hdict p (by simpa [parseSections] using hp)
    | some k =>
      obtain ⟨h, t, hct, hh⟩ := hcontent k rfl
      subst hct
      simp only [parseSections, List.isEmpty_cons, if_false, Bool.false_eq_true] at hp
      exact dictInsert_values_ne dict k _ hdict (joinSep_ne_nil _ h t hh) p hp
  | line :: rest, cur, content, dict => by
    intro hdict hcontent p hp
    by_cases hhdr : headerMarker.isPrefixOf line
    · have hinv : ∀ k, some (sectionKeyOfHeader line) = some k →
          ∃ h t, ([line] : List Txt) = h :: t ∧ h ≠ [] :=
        fun k _ => ⟨line, [], rfl, header_line_ne line hhdr⟩
      cases cur with
      | none =>
        simp only [parseSections, hhdr, if_true] at hp
        exact parseSections_values_ne rest _ _ _ hdict hinv p hp
      | some k =>
        obtain ⟨h, t, hct, hh⟩ := hcontent k rfl
        subst hct
        simp only [parseSections, hhdr, if_true] at hp
        exact parseSections_values_ne rest _ _ _
          (dictInsert_values_ne dict k _ hdict (joinSep_ne_nil _ h t hh)) hinv p hp
    · cases cur with
      | none =>
        simp only [parseSections, hhdr, if_false, Bool.false_eq_true] at hp
        exact parseSections_values_ne rest _ _ _ hdict (by simp) p hp
      | some k =>
        obtain ⟨h, t, hct, hh⟩ := hcontent k rfl
        subst hct
        simp only [parseSections, hhdr, if_false, Bool.false_eq_true] at hp
        refine parseSections_values_ne rest _ _ _ hdict ?_ p hp
        intro k' hk'
        exact ⟨h, t ++ [line], by simp, hh⟩

theorem sectionsDict_values_ne (fullContext : Txt) :
    ∀ p ∈ sectionsDict fullContext, p.2 ≠ [] :=
  parseSections_values_ne (splitOn '\n' fullContext) none [] []
    (by simp) (by simp)

theorem relevantSections_length_le (q : Txt) :
    (relevantSections q).length ≤ 11 := by
  by_cases h : ((keywordSections.filter
      (fun p => p.1.any (fun kw => containsSub kw q))).map Prod.snd).dedup.isEmpty
  · have : relevantSections q = fallbackSections := by simp [relevantSections, h]
    rw [this]
    decide
  · have : relevantSections q = ((keywordSections.filter
        (fun p => p.1.any (fun kw => containsSub kw q))).map Prod.snd).dedup := by
      simp [relevantSections, h]
    rw [this]
    calc (((keywordSections.filter
          (fun p => p.1.any (fun kw => containsSub kw q))).map Prod.snd).dedup).length
        ≤ ((keywordSections.filter
          (fun p => p.1.any (fun kw => containsSub kw q))).map Prod.snd).length :=
          (List.dedup_sublist _).length_le
      _ = (keywordSections.filter
          (fun p => p.1.any (fun kw => containsSub kw q))).length :=
          List.length_map _ _
      _ ≤ keywordSections.length := List.length_filter_le _ _
      _ = 11 := by decide

/-- Case-level restatement of `extract_relevant_sections` (definitional). -/
theorem extract_eq (fullContext userQuestion : Txt) (maxChars : Nat) :
    extract_relevant_sections fullContext userQuestion maxChars =
      if ((extractLoop (sectionsDict fullContext) maxChars
          (relevantSections (toLowerTxt userQuestion))).1).isEmpty
      then fullContext.take maxChars
      else if (joinSep ("\n\n").data (extractLoop (sectionsDict fullContext) maxChars
          (relevantSections (toLowerTxt userQuestion))).1).isEmpty
        then fullContext.take maxChars
        else joinSep ("\n\n").data (extractLoop (sectionsDict fullContext) maxChars
          (relevantSections (toLowerTxt userQuestion))).1 := rfl

/-- C1 (amended): the output of the context selector is linearly bounded in
`max_chars` — at most `36 * (max_chars + 4)` characters — for every corpus,
query and budget.  The bound `max_chars + marker` claimed by the spec fails
(see the counterexample) because a clipped section's characters are never
added to the running budget and the two-character joins are uncounted. -/
theorem extract_length_linear_bound (fullContext userQuestion : Txt) (maxChars : Nat) :
    (extract_relevant_sections fullContext userQuestion maxChars).length ≤
      36 * (maxChars + 4) := by
  have htake : (fullContext.take maxChars).length ≤ 36 * (maxChars + 4) := by
    rw [List.length_take]
    omega
  rw [extract_eq]
  split
  · exact htake
  · split
    · exact htake
    · rename_i hne1 _
      set labels := relevantSections (toLowerTxt userQuestion) with hlabels
      set dict := sectionsDict fullContext with hdict
      have hloop := extractLoop_eq_extractFold dict maxChars labels
      set ext := (extractLoop dict maxChars labels).1 with hext
      have hextf : ext = (extractFold dict maxChars labels ([], 0)).1 := by
        rw [hext, hloop]
      have hb := extractFold_bound dict maxChars labels ([], 0)
      have hchunks : ∀ c ∈ ext, c ≠ [] := by
        rw [hextf]
        exact extractFold_chunks_ne dict maxChars (sectionsDict_values_ne fullContext)
          labels ([], 0) (by simp)
      have hcnt : ext.length ≤ sumLens ext := length_le_sumLens ext hchunks
      have hextne : ext ≠ [] := by
        intro hc
        rw [hc] at hne1
        simp at hne1
      have hsep : (("\n\n").data).length = 2 := rfl
      have hjoin := joinSep_length ("\n\n").data ext hextne
      rw [hsep] at hjoin
      have hsum : sumLens ext ≤ (extractFold dict maxChars labels ([], 0)).2 +
          labels.length * (maxChars + 4) := by
        have := hb.1
        rw [← hextf] at this
        simpa [sumLens] using this
      have htot : (extractFold dict maxChars labels ([], 0)).2 ≤ maxChars :=
        hb.2.2 (Nat.zero_le _)
      have hmul : labels.length * (maxChars + 4) ≤ 11 * (maxChars + 4) :=
        Nat.mul_le_mul_right _ (by rw [hlabels]; exact relevantSections_length_le _)
      omega

set_option maxRecDepth 10000

/-- C1 (counterexample): on a three-section corpus whose sections are 501
characters each and a query hitting the fallback labels, the selector with
`max_chars = 1002` returns 1515 characters — far above the claimed bound of
`max_chars` plus the 4-character truncation marker.  (The three sections
have equal length, so every iteration order of the label set yields this
same output length.) -/
theorem extract_exceeds_claimed_bound :
    (extract_relevant_sections cexCorpus cexQuery 1002).length = 1515 ∧
      1002 + truncMarker.length < 1515 := by
  constructor
  · decide
  · decide

theorem take_ne_nil_of (m : Nat) (l : Txt) (hm : 0 < m) (hl : l ≠ []) :
    l.take m ≠ [] := by
  cases l with
  | nil => exact absurd rfl hl
  | cons a t =>
    cases m with
    | zero => omega
    | succ k => simp [List.take]

/-- C6: for a non-empty corpus and a positive budget the selector's output
is non-empty; when no keyword set matches the question, the fallback labels
`SECTION 1, SECTION 2, SECTION 9` are used; and when the extraction loop
appended nothing, the first `max_chars` characters of the raw corpus are
returned. -/
theorem extract_nonempty_and_fallbacks (fullContext userQuestion : Txt) (maxChars : Nat) :
    (fullContext ≠ [] → 0 < maxChars →
      extract_relevant_sections fullContext userQuestion maxChars ≠ []) ∧
    ((keywordSections.filter
        (fun p => p.1.any (fun kw => containsSub kw (toLowerTxt userQuestion)))) = [] →
      relevantSections (toLowerTxt userQuestion) = fallbackSections) ∧
    ((extractLoop (sectionsDict fullContext) maxChars
        (relevantSections (toLowerTxt userQuestion))).1 = [] →
      extract_relevant_sections fullContext userQuestion maxChars =
        fullContext.take maxChars) := by
  refine ⟨?_, ?_, ?_⟩
  · intro hfc hm
    rw [extract_eq]
    split
    · exact take_ne_nil_of maxChars fullContext hm hfc
    · split
      · exact take_ne_nil_of maxChars fullContext hm hfc
      · rename_i h2
        intro hc
        rw [hc] at h2
        simp at h2
  · intro h
    simp [relevantSections, h]
  · intro h
    rw [extract_eq, h]
    simp

/-- C6 witness: the corpus `"x"` (no section headers) with the query
`"zzz"` (no keyword hit) and budget 5: the output is non-empty, the
fallback labels are selected, and the raw-prefix fallback fires. -/
theorem extract_nonempty_and_fallbacks_witness :
    (extract_relevant_sections ("x").data cexQuery 5 ≠ []) ∧
    (relevantSections (toLowerTxt cexQuery) = fallbackSections) ∧
    (extract_relevant_sections ("x").data cexQuery 5 = (("x").data).take 5) := by
  have h := extract_nonempty_and_fallbacks ("x").data cexQuery 5
  exact ⟨h.1 (by decide) (by decide), h.2.1 (by decide), h.2.2 (by decide)⟩

/-- When the total length of every section matching a label fits strictly
under the budget, the inner loop appends exactly the matching contents, in
dict order, and counts their full length. -/
theorem innerExtract_all_matched (key : Txt) (maxChars : Nat) :
    ∀ (items : List (Txt × Txt)) (ext : List Txt) (tot : Nat),
      tot + sumLens ((items.filter (fun p => containsSub key p.1)).map Prod.snd)
        < maxChars →
      innerExtract key maxChars items ext tot =
        (ext ++ (items.filter (fun p => containsSub key p.1)).map Prod.snd,
         tot + sumLens ((items.filter (fun p => containsSub key p.1)).map Prod.snd))
  | [], ext, tot => by simp [innerExtract, sumLens]
  | (k, c) :: rest, ext, tot => by
    intro hlt
    by_cases h1 : containsSub key k
    · have hfil : ((k, c) :: rest).filter (fun p => containsSub key p.1) =
          (k, c) :: rest.filter (fun p => containsSub key p.1) := by
        simp [List.filter_cons, h1]
      rw [hfil] at hlt ⊢
      simp only [List.map_cons, sumLens_cons] at hlt ⊢
      have h2 : tot + c.length < maxChars := by omega
      have ih := innerExtract_all_matched key maxChars rest (ext ++ [c])
        (tot + c.length) (by omega)
      simp only [innerExtract, h1, if_pos, h2, if_true, ih]
      rw [List.append_assoc, List.singleton_append, Nat.add_assoc]
    · have hfil : ((k, c) :: rest).filter (fun p => containsSub key p.1) =
          rest.filter (fun p => containsSub key p.1) := by
        simp [List.filter_cons, h1]
      rw [hfil] at hlt ⊢
      simp only [innerExtract, h1, if_false]
      exact innerExtract_all_matched key maxChars rest ext tot hlt

/-- C7: when the question's keywords select exactly one section label and
every section whose dict key contains that label fits (summed) strictly
inside the budget, each such section's content appears verbatim (as a
substring) in the selector's output. -/
theorem matched_section_included_verbatim (fullContext userQuestion : Txt)
    (maxChars : Nat) (X k c : Txt)
    (h1 : relevantSections (toLowerTxt userQuestion) = [X])
    (h2 : sumLens (((sectionsDict fullContext).filter
        (fun p => containsSub X p.1)).map Prod.snd) < maxChars)
    (h3 : (k, c) ∈ (sectionsDict fullContext).filter
        (fun p => containsSub X p.1)) :
    containsSub c (extract_relevant_sections fullContext userQuestion maxChars)
      = true := by
  rw [extract_eq, h1]
  have hfold : extractLoop (sectionsDict fullContext) maxChars [X] =
      innerExtract X maxChars (sectionsDict fullContext) [] 0 := by
    simp [extractLoop]
  rw [hfold, innerExtract_all_matched X maxChars (sectionsDict fullContext) [] 0
    (by omega)]
  set M := ((sectionsDict fullContext).filter
    (fun p => containsSub X p.1)).map Prod.snd with hM
  have hcM : c ∈ M := by
    rw [hM]
    exact List.mem_map.mpr ⟨(k, c), h3, rfl⟩
  have hchunksM : ∀ x ∈ M, x ≠ [] := by
    intro x hx
    rcases List.mem_map.mp hx with ⟨p, hp, rfl⟩
    exact sectionsDict_values_ne fullContext p (List.mem_of_mem_filter hp)
  obtain ⟨hd, tl, hMcons⟩ := List.exists_cons_of_ne_nil (List.ne_nil_of_mem hcM)
  have hjoin_ne : joinSep ("\n\n").data M ≠ [] := by
    rw [hMcons]
    exact joinSep_ne_nil _ hd tl (hchunksM hd (by rw [hMcons]; simp))
  have hMne : ([] ++ M : List Txt).isEmpty = false := by
    rw [List.nil_append, hMcons]
    simp
  simp only [List.nil_append] at hMne ⊢
  rw [if_neg (by simp [hMne, hMcons])]
  rw [if_neg (by simpa using hjoin_ne)]
  obtain ⟨x, y, hxy⟩ := joinSep_split_of_mem ("\n\n").data M c hcM
  rw [hxy]
  exact containsSub_append x c y

/-- C7 witness: the spec's internship scenario — a one-section corpus
`SECTION 4: Internship rules require a signed convention.` and the question
`what documents do I need for an internship?` select exactly `SECTION 4`,
and the whole section appears verbatim in the output. -/
theorem matched_section_included_verbatim_witness :
    containsSub ("SECTION 4: Internship rules require a signed convention.").data
      (extract_relevant_sections
        ("SECTION 4: Internship rules require a signed convention.").data
        ("what documents do I need for an internship?").data 4000) = true :=
  matched_section_included_verbatim
    ("SECTION 4: Internship rules require a signed convention.").data
    ("what documents do I need for an internship?").data 4000
    ("SECTION 4").data ("SECTION 4").data
    ("SECTION 4: Internship rules require a signed convention.").data
    (by decide) (by decide) (by decide)

/-! ## The model-fallback invoker -/

theorem tryModelsAux_all_fail {ε : Type} (oracle : Txt → List ChatMsg → Except ε Txt)
    (messages : List ChatMsg) :
    ∀ (ini : List Txt) (mlast : Txt) (e : ε) (lastErr : Option ε),
      (∀ x ∈ ini, ∃ e', oracle x messages = .error e') →
      oracle mlast messages = .error e →
      tryModelsAux oracle messages (ini ++ [mlast]) lastErr =
        (.error (some e), ini.length + 1)
  | [], mlast, e, lastErr => by
    intro _ hl
    simp [tryModelsAux, hl]
  | m :: rest, mlast, e, lastErr => by
    intro hfail hl
    obtain ⟨e', he'⟩ := hfail m (by simp)
    have ih := tryModelsAux_all_fail oracle messages rest mlast e (some e')
      (fun x hx => hfail x (by simp [hx])) hl
    simp [tryModelsAux, he', ih]

theorem tryModelsAux_first_success {ε : Type} (oracle : Txt → List ChatMsg → Except ε Txt)
    (messages : List ChatMsg) :
    ∀ (pre : List Txt) (m : Txt) (post : List Txt) (t : Txt) (lastErr : Option ε),
      (∀ x ∈ pre, ∃ e', oracle x messages = .error e') →
      oracle m messages = .ok t →
      tryModelsAux oracle messages (pre ++ m :: post) lastErr =
        (.ok (trimChars t), pre.length + 1)
  | [], m, post, t, lastErr => by
    intro _ hok
    simp [tryModelsAux, hok]
  | x :: rest, m, post, t, lastErr => by
    intro hfail hok
    obtain ⟨e', he'⟩ := hfail x (by simp)
    have ih := tryModelsAux_first_success oracle messages rest m post t (some e')
      (fun y hy => hfail y (by simp [hy])) hok
    simp [tryModelsAux, he', ih]

/-- C4: the invoker walks the candidate list in its given order with one
request per candidate tried.  When every candidate fails, it makes exactly
`ini.length + 1 = len(candidates)` requests and surfaces the last
candidate's error; on the first success it stops immediately and returns
that candidate's (stripped) text after `pre.length + 1` requests, never
touching the remaining candidates. -/
theorem fallback_order_attempts_and_last_error {ε : Type}
    (oracle : Txt → List ChatMsg → Except ε Txt) (messages : List ChatMsg) :
    (∀ (ini : List Txt) (mlast : Txt) (e : ε),
      (∀ x ∈ ini, ∃ e', oracle x messages = .error e') →
      oracle mlast messages = .error e →
      chat_completion_with_fallback oracle (ini ++ [mlast]) messages =
        (.error (some e), ini.length + 1)) ∧
    (∀ (pre : List Txt) (m : Txt) (post : List Txt) (t : Txt),
      (∀ x ∈ pre, ∃ e', oracle x messages = .error e') →
      oracle m messages = .ok t →
      chat_completion_with_fallback oracle (pre ++ m :: post) messages =
        (.ok (trimChars t), pre.length + 1)) := by
  constructor
  · intro ini mlast e hfail hl
    exact tryModelsAux_all_fail oracle messages ini mlast e none hfail hl
  · intro pre m post t hfail hok
    exact tryModelsAux_first_success oracle messages pre m post t none hfail hok

/-- C4 witness: on the configured two-candidate list, an always-failing
oracle yields the last error after exactly 2 attempts, and an oracle whose
first candidate fails returns the second candidate's stripped text after
exactly 2 attempts. -/
theorem fallback_order_attempts_and_last_error_witness :
    chat_completion_with_fallback failOracle MODEL_CANDIDATES [] =
      (.error (some 3), 2) ∧
    chat_completion_with_fallback mixedOracle MODEL_CANDIDATES [] =
      (.ok (trimChars ((" ok ").data)), 2) := by
  constructor
  · exact (fallback_order_attempts_and_last_error failOracle []).1
      [("llama-3.1-8b-instant").data] ("llama-3.3-70b-versatile").data 3
      (fun x _ => ⟨3, rfl⟩) rfl
  · exact (fallback_order_attempts_and_last_error mixedOracle []).2
      [("llama-3.1-8b-instant").data] ("llama-3.3-70b-versatile").data []
      ((" ok ").data) (fun x hx => ⟨7, by simp at hx; rw [hx]; rfl⟩) (by rfl)

/-! ## The quick-reply short circuit -/

/-- C5: whenever the quick-reply matcher answers a question (greeting or
thanks vocabulary), `ask_rag_question` returns exactly that canned reply
and performs zero backend requests; the matcher is a pure function and is
consulted before anything else in the flow. -/
theorem quick_reply_short_circuits_backend {ε : Type}
    (oracle : Txt → List ChatMsg → Except ε Txt)
    (docs q lang : Txt) (hist : List ChatMsg) (r : Txt)
    (h : quick_conversation_reply q lang = some r) :
    ask_rag_question oracle docs q lang hist = (.ok r, 0) := by
  simp only [ask_rag_question, h]

/-- C5 witness: `"bonjour"` in French mode returns the canned French
greeting with the backend invocation counter at 0. -/
theorem quick_reply_short_circuits_backend_witness :
    quick_conversation_reply ("bonjour").data ("FR").data =
      some (greetingReply ("FR").data) ∧
    ask_rag_question okOracle docsSmall ("bonjour").data ("FR").data [] =
      (.ok (greetingReply ("FR").data), 0) := by
  have hq : quick_conversation_reply ("bonjour").data ("FR").data =
      some (greetingReply ("FR").data) := by decide
  exact ⟨hq, quick_reply_short_circuits_backend okOracle docsSmall
    ("bonjour").data ("FR").data [] _ hq⟩

/-! ## The rate-limiter gate -/

theorem filter_replicate_cases (p : Nat → Bool) (n a : Nat) :
    List.filter p (List.replicate n a) =
      if p a then List.replicate n a else [] := by
  induction n with
  | zero => simp
  | succ k ih =>
    rw [List.replicate_succ, List.filter_cons, ih]
    by_cases hp : p a
    · simp [hp, List.replicate_succ]
    · simp [hp]

theorem rateCalls_append (xs ys : List Nat) (st : List Nat) :
    rateCalls (xs ++ ys) st =
      ((rateCalls xs st).1 ++ (rateCalls ys (rateCalls xs st).2).1,
       (rateCalls ys (rateCalls xs st).2).2) := by
  induction xs generalizing st with
  | nil => simp [rateCalls]
  | cons n rest ih => simp [rateCalls, ih]

theorem gate_allows_at_same_time (t j : Nat) (hj : j < 10) :
    rate_limit_gate RATE_LIMIT_WINDOW_SECONDS RATE_LIMIT_REQUESTS t
      (List.replicate j t) = (true, List.replicate (j + 1) t) := by
  unfold rate_limit_gate RATE_LIMIT_WINDOW_SECONDS RATE_LIMIT_REQUESTS
  have hf : List.filter (fun ts => decide (t - ts < 60)) (List.replicate j t) =
      List.replicate j t := by
    rw [filter_replicate_cases]
    simp
  simp only [hf, List.length_replicate]
  rw [if_neg (by omega), ← List.replicate_succ']

theorem rateCalls_same_time (t : Nat) :
    ∀ (k j : Nat), j + k ≤ 10 →
      rateCalls (List.replicate k t) (List.replicate j t) =
        (List.replicate k true, List.replicate (j + k) t)
  | 0, j => by
    intro _
    simp [rateCalls]
  | k + 1, j => by
    intro h
    rw [List.replicate_succ]
    simp only [rateCalls]
    rw [gate_allows_at_same_time t j (by omega)]
    have ih := rateCalls_same_time t k (j + 1) (by omega)
    simp only [ih]
    have harith : j + 1 + k = j + (k + 1) := by omega
    rw [harith, List.replicate_succ]

/-- C8: the sliding-window gate with threshold 10 and window 60.  Eleven
calls at the same instant `t` from an empty window: the first 10 are
allowed, the 11th is denied, and the denial records no timestamp (the
stored window still holds exactly the 10 allowed timestamps); a further
call at `t + 60`, after the window has elapsed, is allowed again.  Each
call prunes aged timestamps before checking the threshold and returns the
denial as a value rather than raising. -/
theorem rate_gate_window_scenario (t : Nat) :
    (rateCalls (List.replicate 11 t) []).1 = List.replicate 10 true ++ [false] ∧
    (rateCalls (List.replicate 11 t) []).2 = List.replicate 10 t ∧
    (rate_limit_gate RATE_LIMIT_WINDOW_SECONDS RATE_LIMIT_REQUESTS (t + 60)
      (rateCalls (List.replicate 11 t) []).2).1 = true := by
  have h10 : rateCalls (List.replicate 10 t) [] =
      (List.replicate 10 true, List.replicate 10 t) := by
    have := rateCalls_same_time t 10 0 (by omega)
    simpa using this
  have hdeny : rate_limit_gate RATE_LIMIT_WINDOW_SECONDS RATE_LIMIT_REQUESTS t
      (List.replicate 10 t) = (false, List.replicate 10 t) := by
    unfold rate_limit_gate RATE_LIMIT_WINDOW_SECONDS RATE_LIMIT_REQUESTS
    have hf : List.filter (fun ts => decide (t - ts < 60)) (List.replicate 10 t) =
        List.replicate 10 t := by
      rw [filter_replicate_cases]
      simp
    simp [hf]
  have hsplit : List.replicate 11 t = List.replicate 10 t ++ [t] :=
    List.replicate_succ' 10 t
  have hone : rateCalls [t] (List.replicate 10 t) =
      ([false], List.replicate 10 t) := by
    simp only [rateCalls, hdeny]
  have hall : rateCalls (List.replicate 11 t) [] =
      (List.replicate 10 true ++ [false], List.replicate 10 t) := by
    rw [hsplit, rateCalls_append, h10]
    dsimp only
    rw [hone]
  refine ⟨by rw [hall], by rw [hall], ?_⟩
  rw [hall]
  unfold rate_limit_gate RATE_LIMIT_WINDOW_SECONDS RATE_LIMIT_REQUESTS
  have hage : t + 60 - t = 60 := by omega
  have hf2 : List.filter (fun ts => decide (t + 60 - ts < 60))
      (List.replicate 10 t) = [] := by
    rw [filter_replicate_cases]
    simp [hage]
  simp [hf2]

/-! ## Conversation store -/

/-- C9: `start_new_conversation` changes only the active conversation id
(to the formatted current time) and clears the active-display subset; the
durable chat history, the email history and the rate window are exactly
preserved, so ending a conversation thread never deletes prior turns. -/
theorem start_new_conversation_frame (s : AppState) (nowStr : Txt) :
    (start_new_conversation nowStr s).chat_history = s.chat_history ∧
    (start_new_conversation nowStr s).email_history = s.email_history ∧
    (start_new_conversation nowStr s).rate_storage = s.rate_storage ∧
    (start_new_conversation nowStr s).current_conversation = [] ∧
    (start_new_conversation nowStr s).conversation_id = nowStr := by
  simp [start_new_conversation]

theorem applyOp_storeInv (s : AppState) (op : StoreOp) (h : StoreInv s) :
    StoreInv (applyOp s op) := by
  cases op with
  | addTurn now q a =>
    intro e he
    simp only [applyOp, add_to_chat_history] at he ⊢
    rcases List.mem_append.mp he with h1 | h1
    · obtain ⟨hh, hc⟩ := h e h1
      exact ⟨List.mem_append.mpr (Or.inl hh), hc⟩
    · simp only [List.mem_singleton] at h1
      subst h1
      exact ⟨List.mem_append.mpr (Or.inr (by simp)), rfl⟩
  | startNew now =>
    intro e he
    simp [applyOp, start_new_conversation] at he
  | clearAll =>
    intro e he
    simp [applyOp, clear_all_history] at he
  | deleteConv cid =>
    intro e he
    simp only [applyOp, delete_conversation_by_id] at he ⊢
    by_cases hc : s.conversation_id = cid
    · rw [if_pos hc] at he
      simp at he
    · rw [if_neg hc] at he
      obtain ⟨hh, hcd⟩ := h e he
      refine ⟨List.mem_filter.mpr ⟨hh, ?_⟩, hcd⟩
      simp [hcd, hc]

/-- C10: after any sequence of `add_to_chat_history`,
`start_new_conversation`, `delete_conversation_by_id` and
`clear_all_history` operations starting from a state satisfying the store
invariant (as the freshly initialized session does), every turn shown in
the active conversation is also present in the durable chat history. -/
theorem current_conversation_subset_of_history (ops : List StoreOp) (s : AppState)
    (h : StoreInv s) :
    ∀ e ∈ (applyOps s ops).current_conversation,
      e ∈ (applyOps s ops).chat_history := by
  have hinv : StoreInv (applyOps s ops) := by
    induction ops generalizing s with
    | nil => simpa [applyOps] using h
    | cons op rest ih =>
      have hstep := ih (applyOp s op) (applyOp_storeInv s op h)
      simpa [applyOps] using hstep
  exact fun e he => (hinv e he).1

/-- C10 witness: after the demo trace (turn, new conversation, turn,
delete first conversation) the surviving displayed turn is in the durable
history. -/
theorem current_conversation_subset_of_history_witness :
    (⟨("t3").data, ("t2").data, ("q2").data, ("a2").data⟩ : Entry) ∈
      (applyOps initState demoOps).chat_history :=
  current_conversation_subset_of_history demoOps initState
    (by intro e he; simp [initState] at he)
    ⟨("t3").data, ("t2").data, ("q2").data, ("a2").data⟩ (by decide)

/-! ## The unwired rate limiter and validator in the question flow -/

/-- C2 (code-bug evidence): `main` calls `ask_rag_question` directly and
never consults the `rate_limit` gate, so eleven back-to-back questions in
one session produce eleven backend requests and leave the rate window
untouched — while the gate itself, had it been applied, would have denied
the eleventh call in the same 60-second window. -/
theorem flow_eleven_backend_calls_pass_ungated :
    (processRepeat okOracle ("t").data docsSmall ("zzz").data ("FR").data 11
      initState).2 = 11 ∧
    RATE_LIMIT_REQUESTS < 11 ∧
    (processRepeat okOracle ("t").data docsSmall ("zzz").data ("FR").data 11
      initState).1.rate_storage = initState.rate_storage ∧
    (rateCalls (List.replicate 11 0) []).1 = List.replicate 10 true ++ [false] := by
  refine ⟨by decide, by decide, by decide, by decide⟩

/-- C3 (code-bug evidence): the spam question `"aaaaaaaaaaa"` (one
character repeated 11 times) is rejected by `validate_question`, but
`main` never calls the validator: processing the question issues one
backend request and records one history turn. -/
theorem invalid_question_reaches_backend_and_history :
    validate_question (List.replicate 11 'a') = false ∧
    (process_question okOracle ("t").data docsSmall (List.replicate 11 'a')
      ("FR").data initState).2 = 1 ∧
    (process_question okOracle ("t").data docsSmall (List.replicate 11 'a')
      ("FR").data initState).1.chat_history.length = 1 := by
  refine ⟨by decide, by decide, by decide⟩

end UniHelp
